import Mathlib

/-!
Verification of `vuln-http-method-auditor` (`src/main.py`).

The script probes a target web server: for each configured endpoint and each
configured HTTP method it issues one request, classifies the outcome by the
numeric status code, and emits a nested JSON report.

The embedding below translates `test_http_methods`, the orchestration in
`main`, the relevant part of the platform URL-join primitive
(`urllib.parse.urljoin`) that the script delegates to, and the JSON rendering
(`json.dumps(..., indent=4)`) for the value shapes the script produces.
The network is modelled by a `Transport` function giving, for each request
issued while probing an endpoint, either an HTTP status code or a
transport-level exception.
-/

set_option maxHeartbeats 1000000

namespace VulnAudit

/-- A `MethodResult` as stored in the Python result dict: `True` (allowed),
`False` (denied), `None` (request error). -/
abbrev MethodResult := Option Bool

/-- `Allowed`: the value `True` recorded when the status code is outside 400-599. -/
def MethodResult.Allowed : MethodResult := some true

/-- `Denied`: the value `False` recorded when the status code is in 400-599. -/
def MethodResult.Denied : MethodResult := some false

/-- `Error`: the value `None` recorded when the request raised an exception. -/
def MethodResult.Error : MethodResult := none

/-- Outcome of one call to `requests.request`: either a response carrying a
numeric status code, or an exception (connection error, timeout, TLS failure,
or any other raised exception — `main.py` lines 67-72 treat them alike). -/
inductive TransportResult where
  | resp (status : Nat)
  | exc
  deriving DecidableEq, Repr

/-- The data passed to `requests.request` for a single probe
(`main.py` line 58): the method, the resolved URL, the `User-Agent` header,
the timeout and the `verify` flag (`verify = not ignore_ssl`). -/
structure Request where
  method : String
  url : String
  userAgent : String
  timeout : Nat
  verify : Bool
  deriving DecidableEq, Repr

/-- One iteration of the probing loop, recorded for analysis: the occurrence
index of the method in the configured list, the request issued, and the value
stored in the result dict for that method. -/
structure ProbeStep where
  idx : Nat
  req : Request
  recorded : MethodResult
  deriving DecidableEq, Repr

/-- The network, for one endpoint: maps the occurrence index and the request
data to the outcome of that request. -/
abbrev Transport := Nat → Request → TransportResult

/-! ### Python dict on string keys, as an insertion-ordered association list -/

/-- Keys of a dict, in insertion order. -/
def dictKeys {α : Type} (d : List (String × α)) : List String :=
  d.map Prod.fst

/-- `d[k] = v` on a Python dict: updating an existing key keeps its position
and replaces the value; a new key is appended at the end. -/
def dictSet {α : Type} (d : List (String × α)) (k : String) (v : α) :
    List (String × α) :=
  if (dictKeys d).contains k then
    d.map (fun p => if p.1 = k then (k, v) else p)
  else
    d ++ [(k, v)]

/-- `d.get(k)` on a Python dict. -/
def dictGet {α : Type} (d : List (String × α)) (k : String) : Option α :=
  match d.find? (fun p => p.1 = k) with
  | some p => some p.2
  | none => none

/-! ### The probing loop of `test_http_methods` (`main.py` lines 55-72) -/

/-- The `for method in methods:` loop. For each method, in order, one request
is issued; a received response with status in `[400, 600)` records `False`,
any other received status records `True`, and an exception records `None`
(both `except` branches at lines 67-72 record `None`). The loop never stops
early. Besides the accumulated result dict, the embedding returns the list of
probe steps actually performed. -/
def probeLoop (transport : Transport) (full_url user_agent : String)
    (timeout : Nat) (ignore_ssl : Bool) :
    List String → Nat → List (String × MethodResult) →
    List (String × MethodResult) × List ProbeStep
  | [], _, results => (results, [])
  | method :: rest, i, results =>
    let req : Request :=
      { method := method, url := full_url, userAgent := user_agent,
        timeout := timeout, verify := !ignore_ssl }
    let v : MethodResult :=
      match transport i req with
      | .resp status => if 400 ≤ status ∧ status < 600 then some false else some true
      | .exc => none
    let next := probeLoop transport full_url user_agent timeout ignore_ssl
      rest (i + 1) (dictSet results method v)
    (next.1, ⟨i, req, v⟩ :: next.2)

/-! ### `urllib.parse.urljoin`, the platform URL-join primitive

`test_http_methods` resolves the full request URL with
`urljoin(url, endpoint)` (`main.py` line 52). The functions below translate
the CPython 3.11 implementation (`urllib/parse.py`: `urlsplit`, `urlparse`,
`urlunsplit`, `urlunparse`, `_splitparams`, `urljoin`) on `List Char`,
specialised to `allow_fragments = True`. The raising validation of exotic
netlocs (unbalanced IPv6 brackets, NFKC check) is not modelled. -/

/-- Characters allowed after the first character of a URL scheme
(`scheme_chars` in `urllib/parse.py`). -/
def scheme_chars : List Char :=
  "abcdefghijklmnopqrstuvwxyzABCDEFGHIJKLMNOPQRSTUVWXYZ0123456789+-.".toList

/-- Schemes for which relative resolution is supported
(`uses_relative` in `urllib/parse.py`). -/
def uses_relative : List (List Char) :=
  ["", "ftp", "http", "gopher", "nntp", "imap", "wais", "file", "https",
   "shttp", "mms", "prospero", "rtsp", "rtspu", "sftp", "svn", "svn+ssh",
   "ws", "wss"].map String.toList

/-- Schemes that use a network location (`uses_netloc` in `urllib/parse.py`). -/
def uses_netloc : List (List Char) :=
  ["", "ftp", "http", "gopher", "nntp", "telnet", "imap", "wais", "file",
   "mms", "https", "shttp", "snews", "prospero", "rtsp", "rtspu", "rsync",
   "svn", "svn+ssh", "sftp", "nfs", "git", "git+ssh", "ws", "wss"].map
    String.toList

/-- Schemes whose path may carry `;`-separated parameters
(`uses_params` in `urllib/parse.py`). -/
def uses_params : List (List Char) :=
  ["", "ftp", "hdl", "prospero", "http", "imap", "https", "shttp", "rtsp",
   "rtspu", "sip", "sips", "mms", "sftp", "tel"].map String.toList

/-- ASCII letter test (`url[0].isascii() and url[0].isalpha()`). -/
def isAsciiAlpha (c : Char) : Bool :=
  ('a' ≤ c ∧ c ≤ 'z') ∨ ('A' ≤ c ∧ c ≤ 'Z')

/-- Membership in `_WHATWG_C0_CONTROL_OR_SPACE`. -/
def c0OrSpace (c : Char) : Bool :=
  c.toNat ≤ 0x20

/-- A character that is not one of the `_UNSAFE_URL_BYTES_TO_REMOVE`
(tab, CR, LF). -/
def cleanChar (c : Char) : Bool :=
  ¬ (c = '\t' ∨ c = '\r' ∨ c = '\n')

/-- Drop the `_UNSAFE_URL_BYTES_TO_REMOVE` (tab, CR, LF) everywhere. -/
def removeUnsafe (l : List Char) : List Char :=
  l.filter cleanChar

/-- `url.lstrip(_WHATWG_C0_CONTROL_OR_SPACE)`. -/
def lstripC0 (l : List Char) : List Char :=
  l.dropWhile c0OrSpace

/-- `scheme.strip(_WHATWG_C0_CONTROL_OR_SPACE)`. -/
def stripC0 (l : List Char) : List Char :=
  ((l.dropWhile c0OrSpace).reverse.dropWhile c0OrSpace).reverse

/-- The scheme-detection step of `urlsplit`: if the text up to the first `:`
is a well-formed scheme, split it off (lower-cased); otherwise keep the
default scheme and the whole text. -/
def splitScheme (url default_scheme : List Char) : List Char × List Char :=
  match url.findIdx? (· = ':') with
  | some i =>
    if 0 < i ∧ isAsciiAlpha (url.headD ' ') ∧
        (url.take i).all (fun c => scheme_chars.contains c) then
      ((url.take i).map Char.toLower, url.drop (i + 1))
    else
      (default_scheme, url)
  | none => (default_scheme, url)

/-- `_splitnetloc`: the network location extends to the first `/`, `?` or `#`. -/
def netlocChar (c : Char) : Bool :=
  ¬ (c = '/' ∨ c = '?' ∨ c = '#')

/-- Split the netloc off the front of the remaining URL text. -/
def splitnetloc (url : List Char) : List Char × List Char :=
  (url.takeWhile netlocChar, url.dropWhile netlocChar)

/-- `s.split(sep, 1)` where a missing separator leaves the text whole: the
part before the first separator, and the part after it (empty if absent). -/
def pySplit1 (l : List Char) (sep : Char) : List Char × List Char :=
  (l.takeWhile (· ≠ sep), (l.dropWhile (· ≠ sep)).tail)

/-- The five components of `urlsplit`: scheme, netloc, path, query, fragment. -/
structure SplitResult where
  scheme : List Char
  netloc : List Char
  path : List Char
  query : List Char
  fragment : List Char
  deriving DecidableEq, Repr

/-- `urlsplit(url, default_scheme)` with `allow_fragments = True`: sanitise,
detect the scheme, then the netloc after `//`, then split the fragment at the
first `#`, then the query at the first `?`. -/
def urlsplitL (url0 default_scheme0 : List Char) : SplitResult :=
  let url1 := removeUnsafe (lstripC0 url0)
  let default_scheme := removeUnsafe (stripC0 default_scheme0)
  let sp := splitScheme url1 default_scheme
  let scheme := sp.1
  let rest := sp.2
  let np :=
    if rest.take 2 = ['/', '/'] then splitnetloc (rest.drop 2) else ([], rest)
  let netloc := np.1
  let rest := np.2
  let fp := pySplit1 rest '#'
  let qp := pySplit1 fp.1 '?'
  ⟨scheme, netloc, qp.1, qp.2, fp.2⟩

/-- The six components of `urlparse`: as `urlsplit`, with the `;`-parameters
split off the last path segment. -/
structure ParseResult where
  scheme : List Char
  netloc : List Char
  path : List Char
  params : List Char
  query : List Char
  fragment : List Char
  deriving DecidableEq, Repr

/-- `url.find(sep, start)` restricted to a character. -/
def findFrom (l : List Char) (sep : Char) (start : Nat) : Option Nat :=
  match (l.drop start).findIdx? (· = sep) with
  | some k => some (start + k)
  | none => none

/-- `url.rfind(c)`: index of the last occurrence. -/
def rfindIdx (l : List Char) (c : Char) : Option Nat :=
  match l.reverse.findIdx? (· = c) with
  | some k => some (l.length - 1 - k)
  | none => none

/-- `_splitparams(url)`: split the parameters off the last path segment. -/
def splitparams (url : List Char) : List Char × List Char :=
  if url.contains '/' then
    match findFrom url ';' ((rfindIdx url '/').getD 0) with
    | some i => (url.take i, url.drop (i + 1))
    | none => (url, [])
  else
    match url.findIdx? (· = ';') with
    | some i => (url.take i, url.drop (i + 1))
    | none => (url, [])

/-- `urlparse(url, default_scheme)` with `allow_fragments = True`. -/
def urlparseL (url default_scheme : List Char) : ParseResult :=
  let s := urlsplitL url default_scheme
  if uses_params.contains s.scheme ∧ s.path.contains ';' then
    let pp := splitparams s.path
    ⟨s.scheme, s.netloc, pp.1, pp.2, s.query, s.fragment⟩
  else
    ⟨s.scheme, s.netloc, s.path, [], s.query, s.fragment⟩

/-- `urlunsplit`: reassemble the five components. -/
def urlunsplitL (r : SplitResult) : List Char :=
  let url := r.path
  let url :=
    if r.netloc ≠ [] ∨
        (r.scheme ≠ [] ∧ uses_netloc.contains r.scheme ∧
          url.take 2 ≠ ['/', '/']) then
      let url := if url ≠ [] ∧ url.take 1 ≠ ['/'] then '/' :: url else url
      '/' :: '/' :: (r.netloc ++ url)
    else url
  let url := if r.scheme ≠ [] then r.scheme ++ ':' :: url else url
  let url := if r.query ≠ [] then url ++ '?' :: r.query else url
  if r.fragment ≠ [] then url ++ '#' :: r.fragment else url

/-- `urlunparse`: reattach the parameters, then `urlunsplit`. -/
def urlunparseL (scheme netloc path params query fragment : List Char) :
    List Char :=
  let url := if params ≠ [] then path ++ ';' :: params else path
  urlunsplitL ⟨scheme, netloc, url, query, fragment⟩

/-- `s.split(sep)` of Python: always one more part than separators;
`''.split(sep) = ['']`. -/
def pySplitAll (sep : Char) : List Char → List (List Char)
  | [] => [[]]
  | c :: rest =>
    if c = sep then [] :: pySplitAll sep rest
    else
      match pySplitAll sep rest with
      | [] => [[c]]
      | h :: t => (c :: h) :: t

/-- `segments[1:-1] = filter(None, segments[1:-1])`: drop empty segments,
keeping the first and last elements whatever they are. -/
def filterMiddle (l : List (List Char)) : List (List Char) :=
  match l with
  | [] => []
  | [a] => [a]
  | a :: rest =>
    match rest.getLast? with
    | none => [a]
    | some last => a :: (rest.dropLast.filter (fun s => s ≠ []) ++ [last])

/-- Python's `sep.join(parts)` for a one-character separator
(`'/'.join(resolved_path)` in `urljoin`). -/
def pyJoin (sep : Char) : List (List Char) → List Char
  | [] => []
  | [x] => x
  | x :: rest => x ++ sep :: pyJoin sep rest

/-- The segment-resolution loop of `urljoin`: `..` pops (ignoring underflow),
`.` is skipped, anything else is appended. -/
def resolveSegs (acc : List (List Char)) : List (List Char) → List (List Char)
  | [] => acc
  | seg :: rest =>
    if seg = ['.', '.'] then resolveSegs acc.dropLast rest
    else if seg = ['.'] then resolveSegs acc rest
    else resolveSegs (acc ++ [seg]) rest

/-- `urljoin(base, url)` from `urllib/parse.py`, on character lists. -/
def urljoinL (base url : List Char) : List Char :=
  if base = [] then url
  else if url = [] then base
  else
    let b := urlparseL base []
    let r := urlparseL url b.scheme
    if ¬ (r.scheme = b.scheme ∧ uses_relative.contains r.scheme) then url
    else if uses_netloc.contains r.scheme ∧ r.netloc ≠ [] then
      urlunparseL r.scheme r.netloc r.path r.params r.query r.fragment
    else
      let netloc := if uses_netloc.contains r.scheme then b.netloc else r.netloc
      if r.path = [] ∧ r.params = [] then
        let query := if r.query = [] then b.query else r.query
        urlunparseL r.scheme netloc b.path b.params query r.fragment
      else
        let base_parts0 := pySplitAll '/' b.path
        let base_parts :=
          if (base_parts0.getLast?).getD [] ≠ ([] : List Char) then
            base_parts0.dropLast
          else base_parts0
        let segments :=
          if r.path.take 1 = ['/'] then pySplitAll '/' r.path
          else filterMiddle (base_parts ++ pySplitAll '/' r.path)
        let resolved := resolveSegs [] segments
        let resolved :=
          if segments.getLast? = some ['.'] ∨ segments.getLast? = some ['.', '.'] then
            resolved ++ [[]]
          else resolved
        let joined := pyJoin '/' resolved
        let path := if joined = [] then ['/'] else joined
        urlunparseL r.scheme netloc path r.params r.query r.fragment

/-- `urljoin` on strings, as called at `main.py` line 52. -/
def urljoin (base url : String) : String :=
  ⟨urljoinL base.toList url.toList⟩

example : urljoin "https://example.com" "/admin" = "https://example.com/admin" := by
  decide

example : urljoin "https://example.com/a/b" "/admin" = "https://example.com/admin" := by
  decide

example : urljoin "https://example.com/a/b" "admin" = "https://example.com/a/admin" := by
  decide

example : urljoin "http://example.com/a/" "c/d" = "http://example.com/a/c/d" := by
  decide

/-! ### `test_http_methods` (`main.py` lines 34-76) -/

/-- `test_http_methods(url, endpoint, methods, user_agent, timeout,
ignore_ssl)`: resolve the full URL with `urljoin`, run the probing loop, and
return the result dict. The whole loop sits in an outer `try` whose
`except Exception` returns `None`; every outcome a request can have (a
response or a raised exception) is already handled inside the loop, so the
embedding has no event that reaches the outer handler. -/
def test_http_methods (transport : Transport) (url endpoint : String)
    (methods : List String) (user_agent : String) (timeout : Nat)
    (ignore_ssl : Bool) : Option (List (String × MethodResult)) :=
  let full_url := urljoin url endpoint
  some (probeLoop transport full_url user_agent timeout ignore_ssl methods 0 []).1

/-- The probe steps performed by one call to `test_http_methods`. -/
def test_http_methods_steps (transport : Transport) (url endpoint : String)
    (methods : List String) (user_agent : String) (timeout : Nat)
    (ignore_ssl : Bool) : List ProbeStep :=
  (probeLoop transport (urljoin url endpoint) user_agent timeout ignore_ssl
    methods 0 []).2

/-! ### JSON output (`save_results_to_file`, `main.py` lines 79-92 and 121-124)

Both output paths serialize with the platform serializer at `indent=4`:
`json.dump(results, f, indent=4)` and `print(json.dumps(all_results,
indent=4))`. The functions below translate `json.dumps` with `indent=4`,
default separators and `ensure_ascii=True`, for the value shape the script
builds: a dict of dicts whose values are `True`/`False`/`None`. -/

/-- One hex digit, lower case. -/
def hexDigit (n : Nat) : Char :=
  Nat.digitChar (n % 16)

/-- Four hex digits, as in a JSON `\uXXXX` escape. -/
def hex4 (n : Nat) : String :=
  ⟨[hexDigit (n / 4096), hexDigit (n / 256), hexDigit (n / 16), hexDigit n]⟩

/-- Escape one character as `py_encode_basestring_ascii` does: `"` and `\`
get a backslash, the usual control shorthands apply, every other character
outside printable ASCII becomes `\uXXXX` (a surrogate pair beyond U+FFFF). -/
def jsonEscapeChar (c : Char) : String :=
  if c = '"' then "\\\""
  else if c = '\\' then "\\\\"
  else if c = '\n' then "\\n"
  else if c = '\r' then "\\r"
  else if c = '\t' then "\\t"
  else if c.toNat = 8 then "\\b"
  else if c.toNat = 12 then "\\f"
  else if c.toNat < 0x20 ∨ 0x7e < c.toNat then
    if c.toNat < 0x10000 then "\\u" ++ hex4 c.toNat
    else
      let v := c.toNat - 0x10000
      "\\u" ++ hex4 (0xd800 + v / 0x400) ++ "\\u" ++ hex4 (0xdc00 + v % 0x400)
  else ⟨[c]⟩

/-- A JSON string literal for `s`, ASCII-escaped. -/
def jsonString (s : String) : String :=
  "\"" ++ String.join (s.toList.map jsonEscapeChar) ++ "\""

/-- Serialization of one `MethodResult`: `None` renders as `null`, `True` as
`true`, `False` as `false`. -/
def renderResult : MethodResult → String
  | some true => "true"
  | some false => "false"
  | none => "null"

/-- `json.dumps` at `indent=4` of one endpoint dict (nesting level 1). -/
def renderEndpointReport (r : List (String × MethodResult)) : String :=
  if r = [] then "\x7b\x7d"
  else
    "\x7b\n" ++
      String.intercalate ",\n"
        (r.map (fun kv => "        " ++ jsonString kv.1 ++ ": " ++
          renderResult kv.2)) ++
      "\n    \x7d"

/-- `json.dumps(all_results, indent=4)` for the nested audit report. -/
def jsonDumpsAudit (report : List (String × List (String × MethodResult))) :
    String :=
  if report = [] then "\x7b\x7d"
  else
    "\x7b\n" ++
      String.intercalate ",\n"
        (report.map (fun kv => "    " ++ jsonString kv.1 ++ ": " ++
          renderEndpointReport kv.2)) ++
      "\n\x7d"

/-! ### `main` (`main.py` lines 94-127) -/

/-- Python's `s.startswith(p)`: `p` is a prefix of `s`. -/
def pyStartswith (s p : String) : Bool :=
  s.toList.take p.toList.length == p.toList

/-- The parsed command-line arguments, after `setup_argparse` returned: the
flags the script consumes. `endpoints` is `none` when `-e` was absent
(`args.endpoints is None`). -/
structure Args where
  url : String
  endpoints : Option (List String)
  methods : List String
  output : Option String
  user_agent : String
  timeout : Nat
  ignore_ssl : Bool
  deriving Repr

/-- The per-run network: for each endpoint (as configured), the transport
behaviour of the requests issued while probing it. -/
abbrev RunTransport := String → Transport

/-- The `for endpoint in args.endpoints:` loop of `main` (lines 113-119):
probe each endpoint in order; a truthy result dict (`if results:`) is stored
under the endpoint key, anything else (in Python, `None` or an empty dict)
is only logged. Also returns every probe step performed, in order. -/
def auditLoop (F : RunTransport) (url : String) (methods : List String)
    (user_agent : String) (timeout : Nat) (ignore_ssl : Bool) :
    List String → List (String × List (String × MethodResult)) →
    List (String × List (String × MethodResult)) × List ProbeStep
  | [], all_results => (all_results, [])
  | endpoint :: rest, all_results =>
    let results :=
      test_http_methods (F endpoint) url endpoint methods user_agent timeout
        ignore_ssl
    let steps :=
      test_http_methods_steps (F endpoint) url endpoint methods user_agent
        timeout ignore_ssl
    let all_results :=
      match results with
      | some r => if r = [] then all_results else dictSet all_results endpoint r
      | none => all_results
    let next :=
      auditLoop F url methods user_agent timeout ignore_ssl rest all_results
    (next.1, steps ++ next.2)

/-- Where the JSON text went: `save_results_to_file` or `print`. -/
inductive Emitted where
  | toFile (path : String) (contents : String)
  | toConsole (contents : String)
  deriving DecidableEq, Repr

/-- The JSON text carried by an emission. -/
def Emitted.contents : Emitted → String
  | .toFile _ c => c
  | .toConsole c => c

/-- Observable outcome of one run of `main`: the process exit status, the
probe steps issued, the emission of the JSON result (absent when the run
exited early), and whether the output file was actually written
(`save_results_to_file` swallows `IOError`, logging it). -/
structure RunResult where
  exit : Nat
  steps : List ProbeStep
  emitted : Option Emitted
  fileWritten : Bool
  deriving Repr

/-- `main()` (lines 94-127), for parsed arguments: validate the URL prefix
(line 101) and the presence of endpoints (line 105), exiting with status 1
before any request; then run the audit loop and route the JSON report by the
truthiness test `if args.output:` (line 121) — to the output file when `-o`
was given with a non-empty path, else to the console (an absent `-o` is
`None`, and an empty path string is falsy, so both print). `writeOk` says
whether the file write would succeed; a failure is logged and changes
nothing else. -/
def runMain (F : RunTransport) (args : Args) (writeOk : Bool) : RunResult :=
  if ¬ pyStartswith args.url "http://" ∧ ¬ pyStartswith args.url "https://" then
    ⟨1, [], none, false⟩
  else
    match args.endpoints with
    | none => ⟨1, [], none, false⟩
    | some endpoints =>
      let audit :=
        auditLoop F args.url args.methods args.user_agent args.timeout
          args.ignore_ssl endpoints []
      let text := jsonDumpsAudit audit.1
      match args.output with
      | some path =>
        if path = "" then ⟨0, audit.2, some (.toConsole text), true⟩
        else ⟨0, audit.2, some (.toFile path text), writeOk⟩
      | none => ⟨0, audit.2, some (.toConsole text), true⟩

/-- The audit report `main` accumulates, for stating theorems. -/
def auditReport (F : RunTransport) (url : String) (methods : List String)
    (user_agent : String) (timeout : Nat) (ignore_ssl : Bool)
    (endpoints : List String) : List (String × List (String × MethodResult)) :=
  (auditLoop F url methods user_agent timeout ignore_ssl endpoints []).1

/-! ### Dictionary lemmas -/

/-- Effect of `dictSet` on the key list: an existing key changes nothing, a
new key is appended. -/
def insKey (ks : List String) (m : String) : List String :=
  if ks.contains m then ks else ks ++ [m]

theorem dictKeys_dictSet {α : Type} (d : List (String × α)) (k : String)
    (v : α) : dictKeys (dictSet d k v) = insKey (dictKeys d) k := by
  unfold dictSet insKey
  by_cases h : (dictKeys d).contains k
  · rw [if_pos h, if_pos h]
    simp only [dictKeys, List.map_map]
    refine List.map_congr_left ?_
    intro p _
    by_cases hp : p.1 = k <;> simp [hp, Function.comp]
  · rw [if_neg h, if_neg h]
    simp [dictKeys]

theorem find?_map_set_ne {α : Type} (d : List (String × α)) (k m : String)
    (v : α) (h : m ≠ k) :
    (d.map (fun p => if p.1 = k then (k, v) else p)).find? (fun p => p.1 = m)
      = d.find? (fun p => p.1 = m) := by
  induction d with
  | nil => simp
  | cons p rest ih =>
    by_cases hp : p.1 = k
    · have hm : ¬ p.1 = m := by rw [hp]; exact fun hh => h hh.symm
      simp [List.find?_cons, hp, hm, Ne.symm h, ih]
    · by_cases hm : p.1 = m <;> simp [List.find?_cons, hp, hm, h, ih]

theorem find?_map_set_self {α : Type} (d : List (String × α)) (k : String)
    (v : α) (h : k ∈ dictKeys d) :
    (d.map (fun p => if p.1 = k then (k, v) else p)).find? (fun p => p.1 = k)
      = some (k, v) := by
  induction d with
  | nil => simp [dictKeys] at h
  | cons p rest ih =>
    by_cases hp : p.1 = k
    · simp [List.find?_cons, hp]
    · have hr : k ∈ dictKeys rest := by
        simp only [dictKeys, List.map_cons, List.mem_cons] at h
        rcases h with h1 | h2
        · exact absurd h1.symm hp
        · exact h2
      simp only [List.map_cons, List.find?_cons, if_neg hp]
      simpa [hp] using ih hr

theorem find?_append_single_self {α : Type} (d : List (String × α))
    (k : String) (v : α) (h : k ∉ dictKeys d) :
    (d ++ [(k, v)]).find? (fun p => p.1 = k) = some (k, v) := by
  induction d with
  | nil => simp
  | cons p rest ih =>
    simp only [dictKeys, List.map_cons, List.mem_cons, not_or] at h
    obtain ⟨h1, h2⟩ := h
    have hp : ¬ p.1 = k := fun hh => h1 hh.symm
    simp only [List.cons_append, List.find?_cons]
    simpa [hp] using ih h2

theorem find?_append_single_ne {α : Type} (d : List (String × α))
    (k m : String) (v : α) (h : m ≠ k) :
    (d ++ [(k, v)]).find? (fun p => p.1 = m) = d.find? (fun p => p.1 = m) := by
  induction d with
  | nil => simp [Ne.symm h]
  | cons p rest ih =>
    by_cases hp : p.1 = m <;> simp [List.find?_cons, hp, ih]

theorem dictGet_dictSet_self {α : Type} (d : List (String × α)) (k : String)
    (v : α) : dictGet (dictSet d k v) k = some v := by
  unfold dictSet dictGet
  by_cases h : (dictKeys d).contains k
  · rw [if_pos h, find?_map_set_self d k v (List.elem_iff.mp h)]
  · rw [if_neg h,
      find?_append_single_self d k v (fun hm => h (List.elem_iff.mpr hm))]

theorem dictGet_dictSet_ne {α : Type} (d : List (String × α)) (k m : String)
    (v : α) (h : m ≠ k) : dictGet (dictSet d k v) m = dictGet d m := by
  unfold dictSet dictGet
  by_cases hc : (dictKeys d).contains k
  · rw [if_pos hc, find?_map_set_ne d k m v h]
  · rw [if_neg hc, find?_append_single_ne d k m v h]

/-! ### Lemmas about the probing loop -/

/-- The value `test_http_methods` stores for one transport outcome. -/
def recordOf : TransportResult → MethodResult
  | .resp status => if 400 ≤ status ∧ status < 600 then some false else some true
  | .exc => none

theorem probeLoop_keys (tr : Transport) (u ua : String) (tmo : Nat) (ig : Bool) :
    ∀ (ms : List String) (i : Nat) (d : List (String × MethodResult)),
      dictKeys (probeLoop tr u ua tmo ig ms i d).1 = ms.foldl insKey (dictKeys d)
  | [], i, d => by simp [probeLoop]
  | m :: rest, i, d => by
    simp only [probeLoop, List.foldl_cons]
    rw [probeLoop_keys tr u ua tmo ig rest (i + 1) _, dictKeys_dictSet]

theorem probeLoop_steps_methods (tr : Transport) (u ua : String) (tmo : Nat)
    (ig : Bool) :
    ∀ (ms : List String) (i : Nat) (d : List (String × MethodResult)),
      ((probeLoop tr u ua tmo ig ms i d).2).map (fun st => st.req.method) = ms
  | [], i, d => by simp [probeLoop]
  | m :: rest, i, d => by
    simp only [probeLoop, List.map_cons]
    rw [probeLoop_steps_methods tr u ua tmo ig rest (i + 1) _]

theorem probeLoop_steps_req (tr : Transport) (u ua : String) (tmo : Nat)
    (ig : Bool) :
    ∀ (ms : List String) (i : Nat) (d : List (String × MethodResult)),
      ∀ st ∈ (probeLoop tr u ua tmo ig ms i d).2,
        st.req = ⟨st.req.method, u, ua, tmo, !ig⟩
  | [], i, d => by simp [probeLoop]
  | m :: rest, i, d => by
    intro st hst
    simp only [probeLoop, List.mem_cons] at hst
    rcases hst with rfl | hst
    · rfl
    · exact probeLoop_steps_req tr u ua tmo ig rest (i + 1) _ st hst

theorem probeLoop_steps_recorded (tr : Transport) (u ua : String) (tmo : Nat)
    (ig : Bool) :
    ∀ (ms : List String) (i : Nat) (d : List (String × MethodResult)),
      ∀ st ∈ (probeLoop tr u ua tmo ig ms i d).2,
        st.recorded = recordOf (tr st.idx st.req)
  | [], i, d => by simp [probeLoop]
  | m :: rest, i, d => by
    intro st hst
    simp only [probeLoop, List.mem_cons] at hst
    rcases hst with rfl | hst
    · dsimp only
      cases tr i ⟨m, u, ua, tmo, !ig⟩ <;> simp [recordOf]
    · exact probeLoop_steps_recorded tr u ua tmo ig rest (i + 1) _ st hst

theorem probeLoop_dictGet (tr : Transport) (u ua : String) (tmo : Nat)
    (ig : Bool) :
    ∀ (ms : List String) (i : Nat) (d : List (String × MethodResult))
      (m : String),
      dictGet (probeLoop tr u ua tmo ig ms i d).1 m =
        match ((probeLoop tr u ua tmo ig ms i d).2.filter
            (fun st => st.req.method = m)).getLast? with
        | some st => some st.recorded
        | none => dictGet d m
  | [], i, d, m => by simp [probeLoop]
  | mh :: rest, i, d, m => by
    simp only [probeLoop]
    rw [probeLoop_dictGet tr u ua tmo ig rest (i + 1) _ m]
    by_cases hm : mh = m
    · subst hm
      simp only [List.filter_cons]
      rw [if_pos (by simp), List.getLast?_cons]
      cases hL : ((probeLoop tr u ua tmo ig rest (i + 1)
          (dictSet d mh _)).2.filter (fun st => st.req.method = mh)).getLast? with
      | some st => simp [hL]
      | none => simp [hL, dictGet_dictSet_self]
    · simp only [List.filter_cons]
      rw [if_neg (by simp [hm])]
      cases hL : ((probeLoop tr u ua tmo ig rest (i + 1)
          (dictSet d mh _)).2.filter (fun st => st.req.method = m)).getLast? with
      | some st => simp [hL]
      | none => simp [hL, dictGet_dictSet_ne _ _ _ _ (Ne.symm hm)]

/-! ### Key-list lemmas -/

theorem insKey_ne_nil (ks : List String) (m : String) : insKey ks m ≠ [] := by
  unfold insKey
  by_cases h : ks.contains m
  · rw [if_pos h]
    intro hk
    subst hk
    simp at h
  · rw [if_neg h]
    simp

theorem foldl_insKey_ne_nil (ms : List String) (ks : List String)
    (h : ms ≠ [] ∨ ks ≠ []) : ms.foldl insKey ks ≠ [] := by
  induction ms generalizing ks with
  | nil =>
    rcases h with h1 | h2
    · exact absurd rfl h1
    · simpa using h2
  | cons m rest ih =>
    rw [List.foldl_cons]
    exact ih (insKey ks m) (Or.inr (insKey_ne_nil ks m))

theorem insKey_nodup (ks : List String) (m : String) (h : ks.Nodup) :
    (insKey ks m).Nodup := by
  unfold insKey
  by_cases hc : ks.contains m
  · rwa [if_pos hc]
  · rw [if_neg hc]
    have : m ∉ ks := fun hm => hc (List.elem_iff.mpr hm)
    simp [List.nodup_append, h, this]

theorem foldl_insKey_nodup (ms ks : List String) (h : ks.Nodup) :
    (ms.foldl insKey ks).Nodup := by
  induction ms generalizing ks with
  | nil => simpa using h
  | cons m rest ih =>
    rw [List.foldl_cons]
    exact ih _ (insKey_nodup ks m h)

theorem foldl_insKey_of_nodup (ms : List String) :
    ∀ ks : List String, ms.Nodup → (∀ m ∈ ms, m ∉ ks) →
      ms.foldl insKey ks = ks ++ ms := by
  induction ms with
  | nil => simp
  | cons m rest ih =>
    intro ks hnd hdis
    have hm : m ∉ ks := hdis m (by simp)
    have hc : ¬ ks.contains m = true := fun hc => hm (List.elem_iff.mp hc)
    rw [List.foldl_cons]
    rw [show insKey ks m = ks ++ [m] from by unfold insKey; rw [if_neg hc]]
    have hnd' : rest.Nodup := hnd.of_cons
    have hmr : m ∉ rest := by
      intro hmem
      exact (List.nodup_cons.mp hnd).1 hmem
    have hdis' : ∀ x ∈ rest, x ∉ ks ++ [m] := by
      intro x hx
      simp only [List.mem_append, List.mem_singleton, not_or]
      refine ⟨hdis x (by simp [hx]), ?_⟩
      intro hxm
      subst hxm
      exact hmr hx
    rw [ih (ks ++ [m]) hnd' hdis']
    simp

/-! ### Lemmas about the audit loop of `main` -/

theorem auditLoop_steps (F : RunTransport) (u : String) (ms : List String)
    (ua : String) (tmo : Nat) (ig : Bool) :
    ∀ (eps : List String) (acc : List (String × List (String × MethodResult))),
      (auditLoop F u ms ua tmo ig eps acc).2 =
        eps.flatMap (fun ep => test_http_methods_steps (F ep) u ep ms ua tmo ig)
  | [], acc => by simp [auditLoop]
  | ep :: rest, acc => by
    simp only [auditLoop, List.flatMap_cons]
    rw [auditLoop_steps F u ms ua tmo ig rest _]

theorem auditLoop_dictGet (F : RunTransport) (u : String) (ms : List String)
    (ua : String) (tmo : Nat) (ig : Bool) :
    ∀ (eps : List String) (acc : List (String × List (String × MethodResult)))
      (ep : String),
      dictGet (auditLoop F u ms ua tmo ig eps acc).1 ep =
        if ep ∈ eps ∧
            ((test_http_methods (F ep) u ep ms ua tmo ig).getD []) ≠ [] then
          test_http_methods (F ep) u ep ms ua tmo ig
        else dictGet acc ep
  | [], acc, ep => by simp [auditLoop]
  | e :: rest, acc, ep => by
    simp only [auditLoop]
    rw [auditLoop_dictGet F u ms ua tmo ig rest _ ep]
    simp only [test_http_methods, Option.getD_some]
    by_cases hmem : ep ∈ rest ∧
        (probeLoop (F ep) (urljoin u ep) ua tmo ig ms 0 []).1 ≠ []
    · rw [if_pos hmem, if_pos ⟨List.mem_cons_of_mem e hmem.1, hmem.2⟩]
    · rw [if_neg hmem]
      by_cases he : ep = e
      · subst he
        by_cases hr : (probeLoop (F ep) (urljoin u ep) ua tmo ig ms 0 []).1 = []
        · rw [if_pos hr, if_neg (fun hc => hc.2 hr)]
        · rw [if_neg hr, if_pos ⟨List.mem_cons_self ep rest, hr⟩]
          exact dictGet_dictSet_self acc ep _
      · have hcond : ¬ (ep ∈ e :: rest ∧
            (probeLoop (F ep) (urljoin u ep) ua tmo ig ms 0 []).1 ≠ []) := by
          intro hc
          rcases List.mem_cons.mp hc.1 with h1 | h1
          · exact he h1
          · exact hmem ⟨h1, hc.2⟩
        rw [if_neg hcond]
        by_cases hre : (probeLoop (F e) (urljoin u e) ua tmo ig ms 0 []).1 = []
        · rw [if_pos hre]
        · rw [if_neg hre, dictGet_dictSet_ne acc e ep _ he]

/-- The audit report of a full run of `main`, for stating theorems: empty
when the run exits before the loop. -/
def runReport (F : RunTransport) (args : Args) :
    List (String × List (String × MethodResult)) :=
  match args.endpoints with
  | some eps =>
    auditReport F args.url args.methods args.user_agent args.timeout
      args.ignore_ssl eps
  | none => []

/-! ### The claims -/

/-- **C1**: for every (endpoint, method) probe in which the transport returns
a response, the recorded `MethodResult` is determined solely by the numeric
status code: status in `[400, 600)` records `Denied` (`False`), any other
received status (1xx/2xx/3xx/…) records `Allowed` (`True`). -/
theorem claim_C1_status_classification (tr : Transport)
    (url endpoint ua : String) (tmo : Nat) (ig : Bool) (methods : List String)
    (st : ProbeStep)
    (hst : st ∈ test_http_methods_steps tr url endpoint methods ua tmo ig)
    (status : Nat) (hresp : tr st.idx st.req = .resp status) :
    st.recorded =
      if 400 ≤ status ∧ status < 600 then MethodResult.Denied
      else MethodResult.Allowed := by
  have h := probeLoop_steps_recorded tr (urljoin url endpoint) ua tmo ig
    methods 0 [] st (by simpa [test_http_methods_steps] using hst)
  rw [h, hresp]
  by_cases hs : 400 ≤ status ∧ status < 600 <;>
    simp [recordOf, hs, MethodResult.Denied, MethodResult.Allowed]

theorem claim_C1_status_classification_witness :
    (⟨0, ⟨"GET", "http://h/p", "ua", 10, true⟩, some false⟩ : ProbeStep).recorded
      = if 400 ≤ 404 ∧ 404 < 600 then MethodResult.Denied
        else MethodResult.Allowed :=
  claim_C1_status_classification (fun _ _ => .resp 404) "http://h" "/p" "ua"
    10 false ["GET"] ⟨0, ⟨"GET", "http://h/p", "ua", 10, true⟩, some false⟩
    (by decide) 404 rfl

/-- **C2**: a probe whose request raises a transport-level fault records
`Error` (`None`) for that method, and probing continues with every remaining
method of the same endpoint: the steps performed always cover the whole
configured method list, in order. -/
theorem claim_C2_transport_error_isolation (tr : Transport)
    (url endpoint ua : String) (tmo : Nat) (ig : Bool)
    (methods : List String) :
    (∀ st ∈ test_http_methods_steps tr url endpoint methods ua tmo ig,
      tr st.idx st.req = .exc → st.recorded = MethodResult.Error) ∧
    (test_http_methods_steps tr url endpoint methods ua tmo ig).map
      (fun st => st.req.method) = methods := by
  constructor
  · intro st hst hexc
    have h := probeLoop_steps_recorded tr (urljoin url endpoint) ua tmo ig
      methods 0 [] st (by simpa [test_http_methods_steps] using hst)
    rw [h, hexc]
    rfl
  · exact probeLoop_steps_methods tr (urljoin url endpoint) ua tmo ig
      methods 0 []

theorem claim_C2_transport_error_isolation_witness :
    (⟨0, ⟨"GET", "http://h/p", "ua", 10, true⟩, none⟩ : ProbeStep).recorded
        = MethodResult.Error ∧
    (test_http_methods_steps (fun _ _ => .exc) "http://h" "/p" ["GET", "PUT"]
      "ua" 10 false).map (fun st => st.req.method) = ["GET", "PUT"] :=
  ⟨(claim_C2_transport_error_isolation (fun _ _ => .exc) "http://h" "/p" "ua"
      10 false ["GET", "PUT"]).1
      ⟨0, ⟨"GET", "http://h/p", "ua", 10, true⟩, none⟩ (by decide) rfl,
    (claim_C2_transport_error_isolation (fun _ _ => .exc) "http://h" "/p" "ua"
      10 false ["GET", "PUT"]).2⟩

/-- **C3** as stated is false on the code: with a configured method list that
repeats a name, the report does not have one entry per requested method. With
`methods = ["GET", "GET"]` the report keys are `["GET"]`, not
`["GET", "GET"]`. -/
theorem claim_C3_counterexample :
    ¬ dictKeys ((test_http_methods (fun _ _ => .resp 200) "http://h" "/p"
        ["GET", "GET"] "ua" 10 false).getD []) = ["GET", "GET"] := by
  decide

/-- **C3** (amended): the report's keys are the configured methods with later
duplicate occurrences dropped (first-occurrence order, `foldl insKey []`);
when the configured list has no repeated names the keys are exactly the
configured list in its order; and every stored value is one of the three
`MethodResult`s. -/
theorem claim_C3_report_keys (tr : Transport) (url endpoint ua : String)
    (tmo : Nat) (ig : Bool) (methods : List String)
    (r : List (String × MethodResult))
    (hr : test_http_methods tr url endpoint methods ua tmo ig = some r) :
    dictKeys r = methods.foldl insKey [] ∧
    (methods.Nodup → dictKeys r = methods) ∧
    ∀ p ∈ r, p.2 = MethodResult.Allowed ∨ p.2 = MethodResult.Denied ∨
      p.2 = MethodResult.Error := by
  have hrep : r = (probeLoop tr (urljoin url endpoint) ua tmo ig
      methods 0 []).1 := by
    simpa [test_http_methods] using hr.symm
  subst hrep
  refine ⟨?_, ?_, ?_⟩
  · have h := probeLoop_keys tr (urljoin url endpoint) ua tmo ig methods 0 []
    simpa [dictKeys] using h
  · intro hnd
    have h := probeLoop_keys tr (urljoin url endpoint) ua tmo ig methods 0 []
    rw [h]
    have := foldl_insKey_of_nodup methods [] hnd (by simp)
    simpa [dictKeys] using this
  · intro p _
    rcases hv : p.2 with _ | b
    · exact Or.inr (Or.inr rfl)
    · cases b
      · exact Or.inr (Or.inl rfl)
      · exact Or.inl rfl

theorem claim_C3_report_keys_witness :
    dictKeys [("GET", MethodResult.Allowed), ("PUT", MethodResult.Denied)]
      = ["GET", "PUT"] :=
  (claim_C3_report_keys (fun i _ => if i = 0 then .resp 200 else .resp 403)
      "http://h" "/p" "ua" 10 false ["GET", "PUT"]
      [("GET", MethodResult.Allowed), ("PUT", MethodResult.Denied)]
      (by decide)).2.1 (by decide)

/-- **C8**: the per-endpoint catch-all of `test_http_methods` is unreachable:
for every input in which each request either returns a response or raises an
exception scoped to that one method's attempt (every `Transport`), the
function returns a report — it never returns the `None` of the outer
failure branch, because both `except` clauses inside the loop already catch
every per-method exception. -/
theorem claim_C8_outer_handler_unreachable (tr : Transport)
    (url endpoint ua : String) (tmo : Nat) (ig : Bool)
    (methods : List String) :
    (test_http_methods tr url endpoint methods ua tmo ig).isSome = true := rfl

/-- **C9**: with a configured method list that repeats a name, the prober
still issues one request per occurrence, in list order; the report has a
single entry per distinct name; and the value stored for a name is the
classification of the last request issued for it (earlier results are
overwritten). -/
theorem claim_C9_duplicate_methods_last_wins (tr : Transport)
    (url endpoint ua : String) (tmo : Nat) (ig : Bool)
    (methods : List String) (m : String) :
    (test_http_methods_steps tr url endpoint methods ua tmo ig).map
      (fun st => st.req.method) = methods ∧
    (dictKeys ((test_http_methods tr url endpoint methods ua tmo ig).getD
      [])).Nodup ∧
    dictGet ((test_http_methods tr url endpoint methods ua tmo ig).getD []) m
      = match ((test_http_methods_steps tr url endpoint methods ua tmo
          ig).filter (fun st => st.req.method = m)).getLast? with
        | some st => some st.recorded
        | none => none := by
  refine ⟨probeLoop_steps_methods tr (urljoin url endpoint) ua tmo ig
    methods 0 [], ?_, ?_⟩
  · simp only [test_http_methods, Option.getD_some]
    rw [probeLoop_keys tr (urljoin url endpoint) ua tmo ig methods 0 []]
    exact foldl_insKey_nodup methods _ (by simp [dictKeys])
  · simp only [test_http_methods, test_http_methods_steps, Option.getD_some]
    exact probeLoop_dictGet tr (urljoin url endpoint) ua tmo ig methods 0 [] m

/-- **C10**: a probe returns an empty report exactly when the configured
method list is empty, and such an endpoint is omitted from the final
`AuditReport` (inclusion is decided by the truthiness of the returned dict,
so an empty dict is dropped exactly like a failed probe). -/
theorem claim_C10_empty_report_omitted (F : RunTransport)
    (url ua : String) (tmo : Nat) (ig : Bool) (methods : List String)
    (eps : List String) (ep : String) :
    (test_http_methods (F ep) url ep methods ua tmo ig = some [] ↔
      methods = []) ∧
    (methods = [] → ep ∈ eps →
      dictGet (auditReport F url methods ua tmo ig eps) ep = none) := by
  constructor
  · constructor
    · intro h
      by_contra hm
      have hkeys := probeLoop_keys (F ep) (urljoin url ep) ua tmo ig
        methods 0 []
      have hnil : (probeLoop (F ep) (urljoin url ep) ua tmo ig
          methods 0 []).1 = [] := by
        simpa [test_http_methods] using h
      rw [hnil] at hkeys
      simp only [dictKeys, List.map_nil] at hkeys
      exact foldl_insKey_ne_nil methods [] (Or.inl hm) hkeys.symm
    · intro h
      subst h
      simp [test_http_methods, probeLoop]
  · intro h _
    subst h
    unfold auditReport
    rw [auditLoop_dictGet F url [] ua tmo ig eps [] ep]
    simp [test_http_methods, probeLoop, dictGet]

theorem claim_C10_empty_report_omitted_witness :
    dictGet (auditReport (fun _ _ _ => .resp 200) "http://h" [] "ua" 10 false
      ["/a"]) "/a" = none :=
  (claim_C10_empty_report_omitted (fun _ _ _ => .resp 200) "http://h" "ua" 10
    false [] ["/a"] "/a").2 rfl (by decide)

/-- **C4** as stated is false on the code: an endpoint whose probe produced a
report can still be missing from the final `AuditReport`. With an empty
method list the probe for `"/a"` produces a report (it does not fail — it
returns a dict, not `None`), yet the final report has no entry for `"/a"`,
because inclusion tests the dict's truthiness. -/
theorem claim_C4_counterexample :
    test_http_methods (fun _ _ => .resp 200) "http://h" "/a" []
        "ua" 10 false ≠ none ∧
    dictGet (auditReport (fun _ _ _ => .resp 200) "http://h" [] "ua" 10 false
      ["/a"]) "/a" = none := by
  constructor
  · decide
  · decide

/-- **C4** (amended): the orchestrator invokes the prober once per configured
endpoint, in configuration order (the probe steps of the run are the
concatenation of the per-endpoint probe steps), and the final `AuditReport`
has an entry for an endpoint iff it is configured and its probe produced a
non-empty report; the entry is that report. Probes that fail outright or
produce an empty report are omitted, and subsequent endpoints are still
processed. -/
theorem claim_C4_orchestration (F : RunTransport) (url ua : String)
    (tmo : Nat) (ig : Bool) (methods : List String) (eps : List String)
    (ep : String) :
    (auditLoop F url methods ua tmo ig eps []).2 =
      eps.flatMap (fun e =>
        test_http_methods_steps (F e) url e methods ua tmo ig) ∧
    dictGet (auditReport F url methods ua tmo ig eps) ep =
      (if ep ∈ eps ∧
          ((test_http_methods (F ep) url ep methods ua tmo ig).getD []) ≠ []
        then test_http_methods (F ep) url ep methods ua tmo ig
        else none) := by
  constructor
  · exact auditLoop_steps F url methods ua tmo ig eps []
  · unfold auditReport
    rw [auditLoop_dictGet F url methods ua tmo ig eps [] ep]
    by_cases h : ep ∈ eps ∧
        ((test_http_methods (F ep) url ep methods ua tmo ig).getD []) ≠ []
    · rw [if_pos h, if_pos h]
    · rw [if_neg h, if_neg h]
      rfl

/-- **C5**: the process exit status is 1 exactly when a startup usage error
occurs — the URL does not start with `http://` or `https://`, or no
endpoints were supplied — and in both usage-error cases no network request
is issued; every other run exits 0, whatever the probe results and whether
or not writing the output file succeeds. -/
theorem claim_C5_exit_codes (F : RunTransport) (args : Args)
    (writeOk : Bool) :
    ((runMain F args writeOk).exit =
      if (¬ pyStartswith args.url "http://" ∧
            ¬ pyStartswith args.url "https://") ∨ args.endpoints = none
      then 1 else 0) ∧
    (((¬ pyStartswith args.url "http://" ∧
        ¬ pyStartswith args.url "https://") ∨ args.endpoints = none) →
      (runMain F args writeOk).steps = []) ∧
    (∀ w' : Bool, (runMain F args writeOk).exit = (runMain F args w').exit) := by
  by_cases hu : ¬ pyStartswith args.url "http://" ∧
      ¬ pyStartswith args.url "https://"
  · have hrun : ∀ w, runMain F args w = ⟨1, [], none, false⟩ := fun w => by
      unfold runMain
      rw [if_pos hu]
    refine ⟨?_, fun _ => ?_, fun w' => ?_⟩
    · rw [hrun writeOk, if_pos (Or.inl hu)]
    · rw [hrun writeOk]
    · rw [hrun writeOk, hrun w']
  · cases heps : args.endpoints with
    | none =>
      have hrun : ∀ w, runMain F args w = ⟨1, [], none, false⟩ := fun w => by
        unfold runMain
        rw [if_neg hu, heps]
      refine ⟨?_, fun _ => ?_, fun w' => ?_⟩
      · rw [hrun writeOk, if_pos (Or.inr rfl)]
      · rw [hrun writeOk]
      · rw [hrun writeOk, hrun w']
    | some eps =>
      have hcond : ¬ ((¬ pyStartswith args.url "http://" ∧
          ¬ pyStartswith args.url "https://") ∨
          (some eps : Option (List String)) = none) := by
        rintro (h1 | h2)
        · exact hu h1
        · exact Option.noConfusion h2
      have hexit : ∀ w, (runMain F args w).exit = 0 := fun w => by
        unfold runMain
        rw [if_neg hu, heps]
        cases ho : args.output with
        | none => rfl
        | some path => by_cases hp : path = "" <;> simp [hp]
      refine ⟨?_, fun hq => absurd hq hcond, fun w' => ?_⟩
      · rw [hexit writeOk, if_neg hcond]
      · rw [hexit writeOk, hexit w']

theorem claim_C5_exit_codes_witness :
    (runMain (fun _ _ _ => .resp 200) ⟨"ftp://h", some ["/a"], ["GET"], none,
      "ua", 10, false⟩ true).steps = [] :=
  (claim_C5_exit_codes (fun _ _ _ => .resp 200) ⟨"ftp://h", some ["/a"],
    ["GET"], none, "ua", 10, false⟩ true).2.1 (Or.inl (by decide))

theorem runMain_emitted_of_completed (F : RunTransport) (args : Args)
    (writeOk : Bool) (eps : List String)
    (hu : ¬ (¬ pyStartswith args.url "http://" ∧
      ¬ pyStartswith args.url "https://"))
    (heps : args.endpoints = some eps) :
    (runMain F args writeOk).emitted = some
      (match args.output with
        | some p =>
          if p = "" then Emitted.toConsole (jsonDumpsAudit (runReport F args))
          else Emitted.toFile p (jsonDumpsAudit (runReport F args))
        | none => Emitted.toConsole (jsonDumpsAudit (runReport F args))) := by
  unfold runMain
  rw [if_neg hu, heps]
  cases ho : args.output with
  | none => simp [runReport, auditReport, heps, ho]
  | some p =>
    by_cases hp : p = "" <;> simp [runReport, auditReport, heps, ho, hp]

theorem runMain_emitted_usage_url (F : RunTransport) (args : Args)
    (writeOk : Bool)
    (hu : ¬ pyStartswith args.url "http://" ∧
      ¬ pyStartswith args.url "https://") :
    (runMain F args writeOk).emitted = none := by
  unfold runMain
  rw [if_pos hu]

theorem runMain_emitted_usage_endpoints (F : RunTransport) (args : Args)
    (writeOk : Bool) (heps : args.endpoints = none) :
    (runMain F args writeOk).emitted = none := by
  unfold runMain
  by_cases hu : ¬ pyStartswith args.url "http://" ∧
      ¬ pyStartswith args.url "https://"
  · rw [if_pos hu]
  · rw [if_neg hu, heps]

/-- **C6** as stated is false on the code: the output file is chosen by the
truthiness test `if args.output:`, and Python treats the empty string as
falsy, so with `-o ""` an output path is configured yet the JSON text is
printed to standard output, not written to the file. -/
theorem claim_C6_counterexample :
    (⟨"http://h", some ["/a"], ["GET"], some "", "ua", 10,
        false⟩ : Args).output = some "" ∧
    (runMain (fun _ _ _ => .resp 200)
        ⟨"http://h", some ["/a"], ["GET"], some "", "ua", 10, false⟩
        true).emitted
      = some (.toConsole (jsonDumpsAudit (runReport (fun _ _ _ => .resp 200)
          ⟨"http://h", some ["/a"], ["GET"], some "", "ua", 10,
            false⟩))) := by
  exact ⟨rfl, by decide⟩

/-- **C6** (amended): the emitted output is the report's JSON serialization
with four-space indentation, `Error` rendered as `null`, `Allowed` as
`true`, `Denied` as `false`; the same JSON text goes to the output file when
a non-empty output path is configured, and to standard output otherwise
(no `-o`, or an empty path, which the truthiness test treats as unset). -/
theorem claim_C6_json_serialization (F : RunTransport) (args : Args)
    (writeOk : Bool) :
    (∀ p c, (runMain F args writeOk).emitted = some (.toFile p c) →
      args.output = some p ∧ p ≠ "" ∧
        c = jsonDumpsAudit (runReport F args)) ∧
    (∀ c, (runMain F args writeOk).emitted = some (.toConsole c) →
      (args.output = none ∨ args.output = some "") ∧
        c = jsonDumpsAudit (runReport F args)) ∧
    renderResult MethodResult.Error = "null" ∧
    renderResult MethodResult.Allowed = "true" ∧
    renderResult MethodResult.Denied = "false" ∧
    jsonDumpsAudit [("/admin", [("GET", MethodResult.Allowed),
        ("PUT", MethodResult.Denied), ("DELETE", MethodResult.Error)])] =
      "\x7b\n    \"/admin\": \x7b\n        \"GET\": true,\n" ++
        "        \"PUT\": false,\n        \"DELETE\": null\n    \x7d\n\x7d" := by
  refine ⟨?_, ?_, rfl, rfl, rfl, by decide⟩
  · intro p c h
    by_cases hu : ¬ pyStartswith args.url "http://" ∧
        ¬ pyStartswith args.url "https://"
    · rw [runMain_emitted_usage_url F args writeOk hu] at h
      cases h
    · cases heps : args.endpoints with
      | none =>
        rw [runMain_emitted_usage_endpoints F args writeOk heps] at h
        cases h
      | some eps =>
        rw [runMain_emitted_of_completed F args writeOk eps hu heps] at h
        cases ho : args.output with
        | none =>
          rw [ho] at h
          simp at h
        | some path =>
          rw [ho] at h
          dsimp only at h
          by_cases hp : path = ""
          · rw [if_pos hp] at h
            simp at h
          · rw [if_neg hp] at h
            simp only [Option.some.injEq, Emitted.toFile.injEq] at h
            obtain ⟨rfl, rfl⟩ := h
            exact ⟨rfl, hp, rfl⟩
  · intro c h
    by_cases hu : ¬ pyStartswith args.url "http://" ∧
        ¬ pyStartswith args.url "https://"
    · rw [runMain_emitted_usage_url F args writeOk hu] at h
      cases h
    · cases heps : args.endpoints with
      | none =>
        rw [runMain_emitted_usage_endpoints F args writeOk heps] at h
        cases h
      | some eps =>
        rw [runMain_emitted_of_completed F args writeOk eps hu heps] at h
        cases ho : args.output with
        | some path =>
          rw [ho] at h
          dsimp only at h
          by_cases hp : path = ""
          · rw [if_pos hp] at h
            simp only [Option.some.injEq, Emitted.toConsole.injEq] at h
            obtain rfl := h
            exact ⟨Or.inr (by rw [hp]), rfl⟩
          · rw [if_neg hp] at h
            simp at h
        | none =>
          rw [ho] at h
          simp only [Option.some.injEq, Emitted.toConsole.injEq] at h
          obtain rfl := h
          exact ⟨Or.inl rfl, rfl⟩

theorem claim_C6_json_serialization_witness :
    (⟨"http://h", some ["/a"], ["GET"], some "out.json", "ua", 10,
        false⟩ : Args).output = some "out.json" ∧
    ("out.json" : String) ≠ "" ∧
    jsonDumpsAudit (runReport (fun _ _ _ => .resp 200)
        ⟨"http://h", some ["/a"], ["GET"], some "out.json", "ua", 10, false⟩)
      = jsonDumpsAudit (runReport (fun _ _ _ => .resp 200)
        ⟨"http://h", some ["/a"], ["GET"], some "out.json", "ua", 10,
          false⟩) :=
  (claim_C6_json_serialization (fun _ _ _ => .resp 200)
      ⟨"http://h", some ["/a"], ["GET"], some "out.json", "ua", 10, false⟩
      true).1 "out.json"
    (jsonDumpsAudit (runReport (fun _ _ _ => .resp 200)
      ⟨"http://h", some ["/a"], ["GET"], some "out.json", "ua", 10, false⟩))
    (by decide)

/-! ### URL-join lemmas for rooted endpoint paths -/

theorem takeWhile_append_of_all {p : Char → Bool} {l₁ l₂ : List Char}
    (h : ∀ c ∈ l₁, p c) :
    (l₁ ++ l₂).takeWhile p = l₁ ++ l₂.takeWhile p := by
  induction l₁ with
  | nil => simp
  | cons a t ih =>
    have ha : p a := h a (by simp)
    simp only [List.cons_append, List.takeWhile_cons, ha, if_true]
    rw [ih (fun c hc => h c (by simp [hc]))]

theorem dropWhile_append_of_all {p : Char → Bool} {l₁ l₂ : List Char}
    (h : ∀ c ∈ l₁, p c) :
    (l₁ ++ l₂).dropWhile p = l₂.dropWhile p := by
  induction l₁ with
  | nil => simp
  | cons a t ih =>
    have ha : p a := h a (by simp)
    simp only [List.cons_append, List.dropWhile_cons, ha, if_true]
    exact ih (fun c hc => h c (by simp [hc]))

theorem takeWhile_eq_self_of_all {p : Char → Bool} {l : List Char}
    (h : ∀ c ∈ l, p c) : l.takeWhile p = l := by
  induction l with
  | nil => simp
  | cons a t ih =>
    have ha : p a := h a (by simp)
    simp only [List.takeWhile_cons, ha, if_true]
    rw [ih (fun c hc => h c (by simp [hc]))]

theorem dropWhile_eq_nil_of_all {p : Char → Bool} {l : List Char}
    (h : ∀ c ∈ l, p c) : l.dropWhile p = [] := by
  induction l with
  | nil => simp
  | cons a t ih =>
    have ha : p a := h a (by simp)
    simp only [List.dropWhile_cons, ha, if_true]
    exact ih (fun c hc => h c (by simp [hc]))

theorem pySplitAll_ne_nil (sep : Char) (l : List Char) :
    pySplitAll sep l ≠ [] := by
  cases l with
  | nil => simp [pySplitAll]
  | cons c rest =>
    by_cases hc : c = sep
    · simp [pySplitAll, hc]
    · simp only [pySplitAll, hc, if_false]
      cases h : pySplitAll sep rest <;> simp

theorem pyJoin_pySplitAll (sep : Char) (l : List Char) :
    pyJoin sep (pySplitAll sep l) = l := by
  induction l with
  | nil => rfl
  | cons c rest ih =>
    by_cases hc : c = sep
    · subst hc
      simp only [pySplitAll, if_pos rfl]
      cases hS : pySplitAll c rest with
      | nil => exact absurd hS (pySplitAll_ne_nil c rest)
      | cons x t =>
        rw [hS] at ih
        show pyJoin c ([] :: x :: t) = c :: rest
        rw [show pyJoin c ([] :: x :: t) = [] ++ c :: pyJoin c (x :: t) from rfl]
        rw [ih]
        rfl
    · simp only [pySplitAll, hc, if_false]
      cases hS : pySplitAll sep rest with
      | nil => exact absurd hS (pySplitAll_ne_nil sep rest)
      | cons x t =>
        rw [hS] at ih
        cases t with
        | nil =>
          show (c :: x) = c :: rest
          rw [show pyJoin sep [x] = x from rfl] at ih
          rw [ih]
        | cons y u =>
          show (c :: x) ++ sep :: pyJoin sep (y :: u) = c :: rest
          rw [show pyJoin sep (x :: y :: u) = x ++ sep :: pyJoin sep (y :: u)
            from rfl] at ih
          simp only [List.cons_append]
          rw [ih]

theorem resolveSegs_no_dots (segs : List (List Char)) :
    ∀ acc : List (List Char),
      (∀ seg ∈ segs, seg ≠ ['.'] ∧ seg ≠ ['.', '.']) →
      resolveSegs acc segs = acc ++ segs := by
  induction segs with
  | nil => intro acc _; simp [resolveSegs]
  | cons seg rest ih =>
    intro acc h
    have h1 := h seg (by simp)
    simp only [resolveSegs, h1.1, h1.2, if_false]
    rw [ih (acc ++ [seg]) (fun s hs => h s (by simp [hs]))]
    simp

theorem getLast?_isSome_of_ne_nil {α : Type} {l : List α} (h : l ≠ []) :
    ∃ x, l.getLast? = some x := by
  cases l with
  | nil => exact absurd rfl h
  | cons a t => exact ⟨(a :: t).getLast (by simp), List.getLast?_eq_getLast _ _⟩

theorem filter_eq_self_of_all {p : Char → Bool} {l : List Char}
    (h : ∀ c ∈ l, p c) : l.filter p = l := by
  induction l with
  | nil => rfl
  | cons a t ih =>
    have ha : p a := h a (by simp)
    simp only [List.filter_cons, ha, if_true]
    rw [ih (fun c hc => h c (by simp [hc]))]

/-- `urlparse` of a well-formed `http(s)` base URL: the scheme and the host
are recovered exactly; the path components are some split of the base path. -/
theorem urlparseL_base (s host bpath : List Char)
    (hs : s = "http".toList ∨ s = "https".toList)
    (hhostOk : ∀ c ∈ host, netlocChar c ∧ cleanChar c)
    (hbhead : bpath = [] ∨ ¬ netlocChar (bpath.headD ' '))
    (hbclean : ∀ c ∈ bpath, cleanChar c) :
    ∃ p pa q f,
      urlparseL (s ++ ':' :: '/' :: '/' :: (host ++ bpath)) [] =
        ⟨s, host, p, pa, q, f⟩ := by
  have hclean :
      removeUnsafe (lstripC0 (s ++ ':' :: '/' :: '/' :: (host ++ bpath)))
        = s ++ ':' :: '/' :: '/' :: (host ++ bpath) := by
    have hlstrip :
        lstripC0 (s ++ ':' :: '/' :: '/' :: (host ++ bpath))
          = s ++ ':' :: '/' :: '/' :: (host ++ bpath) := by
      rcases hs with rfl | rfl <;> rfl
    rw [hlstrip]
    refine filter_eq_self_of_all ?_
    intro c hc
    rcases List.mem_append.mp hc with h1 | h2
    · rcases hs with rfl | rfl <;> (simp at h1; rcases h1 with rfl | rfl | rfl |
        rfl | rfl <;> rfl)
    · simp only [List.mem_cons] at h2
      rcases h2 with rfl | rfl | rfl | h3
      · rfl
      · rfl
      · rfl
      · rcases List.mem_append.mp h3 with h4 | h4
        · exact (hhostOk c h4).2
        · exact hbclean c h4
  have hsplit :
      splitScheme (s ++ ':' :: '/' :: '/' :: (host ++ bpath)) []
        = (s, '/' :: '/' :: (host ++ bpath)) := by
    rcases hs with rfl | rfl <;> rfl
  have hnet :
      splitnetloc (host ++ bpath) = (host, bpath) := by
    unfold splitnetloc
    have htw : (host ++ bpath).takeWhile netlocChar = host ++ bpath.takeWhile
        netlocChar :=
      takeWhile_append_of_all (fun c hc => (hhostOk c hc).1)
    have hdw : (host ++ bpath).dropWhile netlocChar = bpath.dropWhile
        netlocChar :=
      dropWhile_append_of_all (fun c hc => (hhostOk c hc).1)
    have hbp : bpath.takeWhile netlocChar = [] ∧
        bpath.dropWhile netlocChar = bpath := by
      rcases hbhead with rfl | hh
      · exact ⟨rfl, rfl⟩
      · cases bpath with
        | nil => exact ⟨rfl, rfl⟩
        | cons c t =>
          have : netlocChar c = false := by
            simpa using hh
          simp [List.takeWhile_cons, List.dropWhile_cons, this]
    rw [htw, hdw, hbp.1, hbp.2]
    simp
  unfold urlparseL urlsplitL
  dsimp only
  rw [show removeUnsafe (stripC0 []) = [] from rfl]
  rw [hclean, hsplit]
  dsimp only
  rw [if_pos (show List.take 2 ('/' :: '/' :: (host ++ bpath)) = ['/', '/']
    from rfl)]
  rw [show List.drop 2 ('/' :: '/' :: (host ++ bpath)) = host ++ bpath
    from rfl]
  rw [hnet]
  dsimp only
  by_cases hp : uses_params.contains s ∧
      ((pySplit1 ((pySplit1 bpath '#').1) '?').1).contains ';'
  · rw [if_pos hp]
    exact ⟨_, _, _, _, rfl⟩
  · rw [if_neg hp]
    exact ⟨_, _, _, _, rfl⟩

/-- `urlparse` of a rooted endpoint path against a default scheme: the path
passes through whole, with empty netloc, params, query and fragment. -/
theorem urlparseL_rooted_ref (s ep' : List Char)
    (hs : s = "http".toList ∨ s = "https".toList)
    (hep2 : ('/' :: ep').take 2 ≠ ['/', '/'])
    (hepOk : ∀ c ∈ '/' :: ep', c ≠ '#' ∧ c ≠ '?' ∧ c ≠ ';' ∧ cleanChar c) :
    urlparseL ('/' :: ep') s = ⟨s, [], '/' :: ep', [], [], []⟩ := by
  have hclean : removeUnsafe (lstripC0 ('/' :: ep')) = '/' :: ep' := by
    rw [show lstripC0 ('/' :: ep') = '/' :: ep' from by
      unfold lstripC0
      simp [List.dropWhile_cons, c0OrSpace]]
    exact filter_eq_self_of_all (fun c hc => (hepOk c hc).2.2.2)
  have hdefault : removeUnsafe (stripC0 s) = s := by
    rcases hs with rfl | rfl <;> rfl
  have hsch : splitScheme ('/' :: ep') s = (s, '/' :: ep') := by
    unfold splitScheme
    cases hF : ('/' :: ep').findIdx? (· = ':') with
    | none => rfl
    | some i =>
      dsimp only
      have hhd : ('/' :: ep').headD ' ' = '/' := rfl
      rw [if_neg (fun hcond => absurd (hhd ▸ hcond.2.1) (by decide))]
  have hfrag : pySplit1 ('/' :: ep') '#' = ('/' :: ep', []) := by
    unfold pySplit1
    rw [takeWhile_eq_self_of_all (fun c hc => by
        simpa using (hepOk c hc).1),
      dropWhile_eq_nil_of_all (fun c hc => by
        simpa using (hepOk c hc).1)]
    rfl
  have hquer : pySplit1 ('/' :: ep') '?' = ('/' :: ep', []) := by
    unfold pySplit1
    rw [takeWhile_eq_self_of_all (fun c hc => by
        simpa using (hepOk c hc).2.1),
      dropWhile_eq_nil_of_all (fun c hc => by
        simpa using (hepOk c hc).2.1)]
    rfl
  have hnosemi : ';' ∉ '/' :: ep' := fun hmem => (hepOk ';' hmem).2.2.1 rfl
  unfold urlparseL urlsplitL
  dsimp only
  rw [hclean, hdefault, hsch]
  dsimp only
  rw [if_neg hep2]
  dsimp only
  rw [hfrag]
  dsimp only
  rw [hquer]
  dsimp only
  rw [if_neg (fun hc => hnosemi (List.elem_iff.mp hc.2))]

/-- `urlunparse` of scheme, host and a rooted path with no params, query or
fragment. -/
theorem urlunparseL_rooted (s host ep' : List Char) (hhost : host ≠ [])
    (hsne : s ≠ []) :
    urlunparseL s host ('/' :: ep') [] [] [] =
      s ++ ':' :: '/' :: '/' :: (host ++ '/' :: ep') := by
  unfold urlunparseL urlunsplitL
  simp [hhost, hsne]

/-- `urljoin` of an `http(s)` base URL and a rooted endpoint path (no query,
fragment, params or dot segments): the base's scheme and host are kept, its
path is replaced by the endpoint path. -/
theorem urljoinL_rooted (s host bpath ep' : List Char)
    (hs : s = "http".toList ∨ s = "https".toList)
    (hhost : host ≠ [])
    (hhostOk : ∀ c ∈ host, netlocChar c ∧ cleanChar c)
    (hbhead : bpath = [] ∨ ¬ netlocChar (bpath.headD ' '))
    (hbclean : ∀ c ∈ bpath, cleanChar c)
    (hep2 : ('/' :: ep').take 2 ≠ ['/', '/'])
    (hepOk : ∀ c ∈ '/' :: ep', c ≠ '#' ∧ c ≠ '?' ∧ c ≠ ';' ∧ cleanChar c)
    (hsegs : ∀ seg ∈ pySplitAll '/' ('/' :: ep'),
      seg ≠ ['.'] ∧ seg ≠ ['.', '.']) :
    urljoinL (s ++ ':' :: '/' :: '/' :: (host ++ bpath)) ('/' :: ep') =
      s ++ ':' :: '/' :: '/' :: (host ++ '/' :: ep') := by
  obtain ⟨p, pa, q, f, hb⟩ := urlparseL_base s host bpath hs hhostOk hbhead
    hbclean
  have hrel : uses_relative.contains s = true := by
    rcases hs with rfl | rfl <;> rfl
  have hunet : uses_netloc.contains s = true := by
    rcases hs with rfl | rfl <;> rfl
  have hsne : s ≠ [] := by
    rcases hs with rfl | rfl <;> simp
  have hbasene : s ++ ':' :: '/' :: '/' :: (host ++ bpath) ≠ [] := by
    rcases hs with rfl | rfl <;> simp
  have hr := urlparseL_rooted_ref s ep' hs hep2 hepOk
  have hresolved : resolveSegs [] (pySplitAll '/' ('/' :: ep'))
      = pySplitAll '/' ('/' :: ep') := by
    rw [resolveSegs_no_dots _ [] hsegs]
    rfl
  obtain ⟨lastseg, hlast⟩ :=
    getLast?_isSome_of_ne_nil (pySplitAll_ne_nil '/' ('/' :: ep'))
  have hlastne := hsegs lastseg (List.mem_of_mem_getLast? hlast)
  have hdots : ¬ ((pySplitAll '/' ('/' :: ep')).getLast? = some ['.'] ∨
      (pySplitAll '/' ('/' :: ep')).getLast? = some ['.', '.']) := by
    rintro (hd | hd) <;> rw [hlast] at hd
    · exact hlastne.1 (Option.some.inj hd)
    · exact hlastne.2 (Option.some.inj hd)
  unfold urljoinL
  rw [if_neg hbasene, if_neg (List.cons_ne_nil _ _)]
  dsimp only
  rw [hb]
  dsimp only
  rw [hr]
  dsimp only
  rw [if_neg (fun hn => hn ⟨rfl, hrel⟩)]
  rw [if_neg (fun hc => hc.2 rfl)]
  rw [if_pos hunet]
  rw [if_neg (fun hc => List.cons_ne_nil '/' ep' hc.1)]
  rw [if_pos (show List.take 1 ('/' :: ep') = ['/'] from rfl)]
  rw [hresolved]
  rw [if_neg hdots]
  rw [pyJoin_pySplitAll]
  rw [if_neg (List.cons_ne_nil _ _)]
  exact urlunparseL_rooted s host ep' hhost hsne

/-- **C7**: the full request URL for every probe of an endpoint is the
standard relative-reference resolution (`urljoin`) of the endpoint path
against the base URL, resolved once and used unchanged for all methods; in
particular, for an `http(s)` base URL an endpoint path with a leading `/`
keeps the base URL's scheme and host but replaces the base URL's path. -/
theorem claim_C7_url_resolution (tr : Transport) (url endpoint ua : String)
    (tmo : Nat) (ig : Bool) (methods : List String)
    (s host bpath ep' : List Char)
    (hs : s = "http".toList ∨ s = "https".toList)
    (hhost : host ≠ [])
    (hhostOk : ∀ c ∈ host, netlocChar c ∧ cleanChar c)
    (hbhead : bpath = [] ∨ ¬ netlocChar (bpath.headD ' '))
    (hbclean : ∀ c ∈ bpath, cleanChar c)
    (hep2 : ('/' :: ep').take 2 ≠ ['/', '/'])
    (hepOk : ∀ c ∈ '/' :: ep', c ≠ '#' ∧ c ≠ '?' ∧ c ≠ ';' ∧ cleanChar c)
    (hsegs : ∀ seg ∈ pySplitAll '/' ('/' :: ep'),
      seg ≠ ['.'] ∧ seg ≠ ['.', '.']) :
    (∀ st ∈ test_http_methods_steps tr url endpoint methods ua tmo ig,
      st.req.url = urljoin url endpoint) ∧
    urljoin ⟨s ++ ':' :: '/' :: '/' :: (host ++ bpath)⟩ ⟨'/' :: ep'⟩ =
      ⟨s ++ ':' :: '/' :: '/' :: (host ++ '/' :: ep')⟩ := by
  constructor
  · intro st hst
    exact congrArg Request.url (probeLoop_steps_req tr (urljoin url endpoint)
      ua tmo ig methods 0 [] st (by simpa [test_http_methods_steps] using hst))
  · show (⟨urljoinL (s ++ ':' :: '/' :: '/' :: (host ++ bpath))
      ('/' :: ep')⟩ : String) = _
    exact congrArg (fun l => (⟨l⟩ : String))
      (urljoinL_rooted s host bpath ep' hs hhost hhostOk hbhead hbclean hep2
        hepOk hsegs)

theorem claim_C7_url_resolution_witness :
    (⟨0, ⟨"GET", "https://example.com/admin", "ua", 10, true⟩,
        some true⟩ : ProbeStep).req.url
      = urljoin "https://example.com/a/b" "/admin" ∧
    urljoin ⟨"https".toList ++ ':' :: '/' :: '/' ::
        ("example.com".toList ++ "/a/b".toList)⟩ ⟨'/' :: "admin".toList⟩ =
      ⟨"https".toList ++ ':' :: '/' :: '/' ::
        ("example.com".toList ++ '/' :: "admin".toList)⟩ :=
  ⟨(claim_C7_url_resolution (fun _ _ => .resp 200) "https://example.com/a/b"
      "/admin" "ua" 10 false ["GET"] "https".toList "example.com".toList
      "/a/b".toList "admin".toList (Or.inr rfl) (by decide) (by decide)
      (Or.inr (by decide)) (by decide) (by decide) (by decide) (by decide)).1
      ⟨0, ⟨"GET", "https://example.com/admin", "ua", 10, true⟩, some true⟩
      (by decide),
    (claim_C7_url_resolution (fun _ _ => .resp 200) "https://example.com/a/b"
      "/admin" "ua" 10 false ["GET"] "https".toList "example.com".toList
      "/a/b".toList "admin".toList (Or.inr rfl) (by decide) (by decide)
      (Or.inr (by decide)) (by decide) (by decide) (by decide)
      (by decide)).2⟩

end VulnAudit
